import Mathlib

/-
  Verification of the screen-geometry engine.

  The source is embedded shallowly over the real numbers: numpy arrays of
  three floats become `Vec3`, 3x3 matrices become `Mat3` (stored by columns,
  matching how the source accesses `rotation[:, i]`), and functions that can
  raise become `Except`-valued functions.  Real arithmetic is the idealised
  semantics of the floating-point source; at the two places where the source
  relies on IEEE special values (division by zero and the square root of a
  negative number, both of which produce NaN or an infinity that then fails a
  bounds comparison and raises NoIntersection), the embedding has an explicit
  early Miss branch, each marked with a comment deriving it from the IEEE
  behaviour of the source line.
-/

noncomputable section

open Real

/-- A 3-vector of reals, modelling a numpy array of three floats. -/
structure Vec3 where
  x : ℝ
  y : ℝ
  z : ℝ
deriving DecidableEq

namespace Vec3

def zero : Vec3 := ⟨0, 0, 0⟩

/-- Componentwise sum, modelling numpy `+`. -/
def add (a b : Vec3) : Vec3 := ⟨a.x + b.x, a.y + b.y, a.z + b.z⟩

/-- Componentwise difference, modelling numpy `-`. -/
def sub (a b : Vec3) : Vec3 := ⟨a.x - b.x, a.y - b.y, a.z - b.z⟩

/-- Scalar multiple, modelling numpy scalar `*`. -/
def smul (t : ℝ) (a : Vec3) : Vec3 := ⟨t * a.x, t * a.y, t * a.z⟩

def neg (a : Vec3) : Vec3 := ⟨-a.x, -a.y, -a.z⟩

/-- Dot product, modelling numpy `@` on 3-vectors. -/
def dot (a b : Vec3) : ℝ := a.x * b.x + a.y * b.y + a.z * b.z

/-- Cross product, modelling `np.cross`. -/
def cross (a b : Vec3) : Vec3 :=
  ⟨a.y * b.z - a.z * b.y, a.z * b.x - a.x * b.z, a.x * b.y - a.y * b.x⟩

/-- Euclidean norm, modelling `np.linalg.norm`. -/
def norm (a : Vec3) : ℝ := Real.sqrt (dot a a)

end Vec3

instance : Add Vec3 := ⟨Vec3.add⟩
instance : Sub Vec3 := ⟨Vec3.sub⟩
instance : Neg Vec3 := ⟨Vec3.neg⟩
instance : SMul ℝ Vec3 := ⟨Vec3.smul⟩

/-- A 3x3 real matrix stored by columns, matching the way the source reads
`rotation[:, 0]`, `rotation[:, 1]`, `rotation[:, 2]`. -/
structure Mat3 where
  c0 : Vec3
  c1 : Vec3
  c2 : Vec3

namespace Mat3

/-- Matrix-vector product (`M @ v`): the linear combination of the columns. -/
def mulVec (M : Mat3) (v : Vec3) : Vec3 := v.x • M.c0 + v.y • M.c1 + v.z • M.c2

/-- Transpose: column `j` of the transpose is row `j` of the original. -/
def transpose (M : Mat3) : Mat3 :=
  ⟨⟨M.c0.x, M.c1.x, M.c2.x⟩, ⟨M.c0.y, M.c1.y, M.c2.y⟩, ⟨M.c0.z, M.c1.z, M.c2.z⟩⟩

/-- Matrix-matrix product (`A @ B`), columnwise. -/
def mul (A B : Mat3) : Mat3 := ⟨A.mulVec B.c0, A.mulVec B.c1, A.mulVec B.c2⟩

/-- The identity matrix. -/
def one : Mat3 := ⟨⟨1, 0, 0⟩, ⟨0, 1, 0⟩, ⟨0, 0, 1⟩⟩

end Mat3

/-- Degrees to radians, modelling `np.deg2rad`. -/
def deg2rad (d : ℝ) : ℝ := d * π / 180

/-- The pitch rotation matrix of `Screen.__init__` (rotation about the x axis),
stored by columns. -/
def pitch_matrix (p : ℝ) : Mat3 :=
  ⟨⟨1, 0, 0⟩, ⟨0, Real.cos p, Real.sin p⟩, ⟨0, -Real.sin p, Real.cos p⟩⟩

/-- The yaw rotation matrix of `Screen.__init__` (rotation about the y axis),
stored by columns. -/
def yaw_matrix (w : ℝ) : Mat3 :=
  ⟨⟨Real.cos w, 0, Real.sin w⟩, ⟨0, 1, 0⟩, ⟨-Real.sin w, 0, Real.cos w⟩⟩

/-- The rotation matrix derived in `Screen.__init__`:
`yaw_matrix @ pitch_matrix`, after converting both angles to radians. -/
def mkRotation (pitch yaw : ℝ) : Mat3 :=
  (yaw_matrix (deg2rad yaw)).mul (pitch_matrix (deg2rad pitch))

/-- `utils.get_angle`: the unsigned angle between two vectors, computed as
`arccos((p @ q) / norm(p) / norm(q))` with no clamping of the cosine. -/
def get_angle (p q : Vec3) : ℝ :=
  Real.arccos (Vec3.dot p q / Vec3.norm p / Vec3.norm q)

/-- Two-argument arctangent with the conventions of `np.arctan2`. -/
def arctan2 (y x : ℝ) : ℝ :=
  if 0 < x then Real.arctan (y / x)
  else if x < 0 then
    (if 0 ≤ y then Real.arctan (y / x) + π else Real.arctan (y / x) - π)
  else
    (if 0 < y then π / 2 else if y < 0 then -(π / 2) else 0)

/-- `utils.get_spherical`: the `(theta, phi)` spherical angles of a point. -/
def get_spherical (point : Vec3) : ℝ × ℝ :=
  (arctan2 point.x point.z,
   arctan2 point.y (Real.sqrt (point.x ^ 2 + point.z ^ 2)))

/-- Modelled from the spec: the `normalize` used in the forward/inverse
consistency property (section 8 of the spec) scales a vector to unit length.
It is not a function of the repository; the repository only normalises
implicitly via the hypotheses of that property. -/
def Vec3.normalize (v : Vec3) : Vec3 := (1 / Vec3.norm v) • v

/-- The `Screen` value object.  The Python object stores `base`, `axis` and
`theta_max` only when the screen is curved; here they are always-present
fields that the flat-screen code paths never read (they are filled with zeros
for a flat screen). -/
structure Screen where
  width : ℝ
  height : ℝ
  shift : Vec3
  radius : Option ℝ
  rotation : Mat3
  normal : Vec3
  base : Vec3
  axis : Vec3
  theta_max : ℝ

/-- `Screen.to_global`, as a function of the fields it reads.  This mirrors
the body of the Python method; it is factored out because `Screen.__init__`
calls `to_global` while the object is still being built. -/
def toGlobalAux (width height : ℝ) (shift : Vec3) (radius : Option ℝ)
    (rotation : Mat3) (pixels : ℝ × ℝ) : Vec3 :=
  let x_shift := pixels.1 - width / 2
  let y_shift := pixels.2 - height / 2
  match radius with
  | none => rotation.mulVec ⟨x_shift, y_shift, 0⟩ + shift
  | some r =>
      let angle := x_shift / r
      rotation.mulVec
        ⟨r * Real.sin angle, y_shift, r * (1 - Real.cos angle)⟩ + shift

/-- `Screen.to_global`: pixel coordinates to global coordinates. -/
def Screen.to_global (s : Screen) (pixels : ℝ × ℝ) : Vec3 :=
  toGlobalAux s.width s.height s.shift s.radius s.rotation pixels

/-- `Screen.__init__`: build a Screen from its construction parameters,
deriving `rotation`, `normal` and, for a curved screen, `base`, `axis` and
`theta_max`, exactly as the source does.  The source performs no validation
of any parameter and has no failure path. -/
def mkScreen (width height pitch yaw : ℝ) (shift : Vec3) (radius : Option ℝ) :
    Screen :=
  let rotation := mkRotation pitch yaw
  let normal := rotation.c2
  match radius with
  | none =>
      ⟨width, height, shift, none, rotation, normal, Vec3.zero, Vec3.zero, 0⟩
  | some r =>
      let p := toGlobalAux width height shift (some r) rotation (width / 2, 0)
      let base := p + r • normal
      let axis := rotation.c1
      let q := toGlobalAux width height shift (some r) rotation (width, 0)
      ⟨width, height, shift, some r, rotation, normal, base, axis,
        get_angle (p - base) (q - base)⟩

/-- The `NoIntersection` exception of `screens.py`. -/
inductive NoIntersection where
  | mk

/-- `Screen.find_intersect`: the pixel and global coordinates at which a ray
from the origin strikes this screen, or a Miss.

Two branches make the IEEE behaviour of the source explicit:

* Flat screens: the source computes `t = (shift @ normal) / (ray @ normal)`.
  When `ray @ normal` is zero this division yields an infinity or NaN, every
  later quantity (`point`, `x`, `y`) is then an infinity or NaN, and the
  comparison `0 <= x <= width and 0 <= y <= height` is false for such values
  (any comparison with NaN is false, and an infinite coordinate is out of
  range), so the source raises NoIntersection.  Real division by zero would
  instead return 0 here, so the embedding tests the denominator explicitly
  and misses, which is the observable behaviour of the source.

* Curved screens: when `rxa @ rxa` is zero (ray parallel to the cylinder
  axis) the source divides by zero, and when the discriminant is negative
  `np.sqrt` returns NaN; in both cases `t`, `point` and `y` become NaN or
  infinite and the check `0 <= y <= height` fails, so the source raises
  NoIntersection.  The embedding again tests the two conditions explicitly
  and misses. -/
def Screen.find_intersect (s : Screen) (ray : Vec3) :
    Except NoIntersection (Vec3 × (ℝ × ℝ)) :=
  match s.radius with
  | none =>
      if Vec3.dot ray s.normal = 0 then .error NoIntersection.mk else
      let t := Vec3.dot s.shift s.normal / Vec3.dot ray s.normal
      if t < 0 then .error NoIntersection.mk else
      let point := t • ray - s.shift
      let x := Vec3.dot s.rotation.c0 point + s.width / 2
      let y := Vec3.dot s.rotation.c1 point + s.height / 2
      if 0 ≤ x ∧ x ≤ s.width ∧ 0 ≤ y ∧ y ≤ s.height then
        .ok (point + s.shift, (x, y))
      else .error NoIntersection.mk
  | some r =>
      let rxa := Vec3.cross ray s.axis
      if Vec3.dot rxa rxa = 0 then .error NoIntersection.mk else
      if r ^ 2 * Vec3.dot rxa rxa - Vec3.dot s.base rxa ^ 2 < 0 then
        .error NoIntersection.mk else
      let sq := Real.sqrt (r ^ 2 * Vec3.dot rxa rxa - Vec3.dot s.base rxa ^ 2)
      let t := (Vec3.dot rxa (Vec3.cross s.base s.axis) + sq) /
        Vec3.dot rxa rxa
      let point := t • ray
      let y := Vec3.dot s.axis (point - s.base)
      if 0 ≤ y ∧ y ≤ s.height then
        let center := s.base + y • s.rotation.c1
        let q := s.to_global (s.width / 2, y)
        let theta := get_angle (point - center) (q - center)
        if s.theta_max < theta then .error NoIntersection.mk
        else
          .ok (point,
            (s.width / 2 + Real.sign (Vec3.dot (point - q) s.rotation.c0) *
              theta * r, y))
      else .error NoIntersection.mk

/-- The `RuntimeError` raised by `scenes.find_screen_and_point` when no
screen produced a hit. -/
inductive ResolverError where
  | noIntersectionFound

/-- The ray reconstructed by `scenes.find_screen_and_point` from the fixation
and the requested angular offsets (offsets in degrees). -/
def mkRay (fix_pixels : ℝ × ℝ) (fix_screen : Screen) (angles : ℝ × ℝ) : Vec3 :=
  let fix_point := fix_screen.to_global fix_pixels
  let sph := get_spherical fix_point
  let theta := deg2rad angles.1 + sph.1
  let phi := deg2rad angles.2 + sph.2
  ⟨Real.cos phi * Real.sin theta, Real.sin phi, Real.cos phi * Real.cos theta⟩

/-- One iteration of the selection loop of `find_screen_and_point`.  The
accumulator holds the best screen so far together with its pixel coordinates
and distance; `none` models the initial state `min_dist = np.inf`, which any
real distance beats (`dist < np.inf` is true for every float distance the
loop can compute). -/
def resolveStep (ray : Vec3) (st : Option (Screen × (ℝ × ℝ) × ℝ))
    (screen : Screen) : Option (Screen × (ℝ × ℝ) × ℝ) :=
  match screen.find_intersect ray with
  | .error _ => st
  | .ok (point, pixels) =>
      let dist := Vec3.norm point
      match st with
      | none => some (screen, pixels, dist)
      | some (bs, bp, md) =>
          if dist < md then some (screen, pixels, dist) else some (bs, bp, md)

/-- `scenes.find_screen_and_point`: reconstruct the target ray, try every
candidate screen, keep the closest hit, and fail only when every candidate
missed. -/
def find_screen_and_point (fix_pixels : ℝ × ℝ) (fix_screen : Screen)
    (screens : List Screen) (angles : ℝ × ℝ) :
    Except ResolverError (Screen × (ℝ × ℝ)) :=
  match screens.foldl (resolveStep (mkRay fix_pixels fix_screen angles))
      none with
  | none => .error ResolverError.noIntersectionFound
  | some (s, px, _) => .ok (s, px)

/-- The loop invariant of the selection loop in `find_screen_and_point`:
after the screens in `processed` have been examined, either no screen so far
produced a hit (state `none`, modelling `min_dist = np.inf`), or the state
holds the first screen among `processed` attaining the minimum hit distance,
together with its pixel and distance: every earlier screen that hits does so
strictly farther away (strict `<` in the source means an exact tie keeps the
earlier screen), and every later screen that hits does so no closer. -/
def ResolveInv (ray : Vec3) (processed : List Screen)
    (st : Option (Screen × (ℝ × ℝ) × ℝ)) : Prop :=
  match st with
  | none => ∀ s ∈ processed, ∀ pt px, s.find_intersect ray ≠ .ok (pt, px)
  | some (bs, bp, bd) =>
      ∃ pre post pt,
        processed = pre ++ bs :: post ∧
        bs.find_intersect ray = .ok (pt, bp) ∧
        bd = Vec3.norm pt ∧
        (∀ s ∈ pre, ∀ pt2 px2, s.find_intersect ray = .ok (pt2, px2) →
          bd < Vec3.norm pt2) ∧
        (∀ s ∈ post, ∀ pt2 px2, s.find_intersect ray = .ok (pt2, px2) →
          bd ≤ Vec3.norm pt2)

end

noncomputable section

open Real

@[simp] theorem Vec3.add_mk (a b c d e f : ℝ) :
    Vec3.mk a b c + Vec3.mk d e f = Vec3.mk (a + d) (b + e) (c + f) := rfl

@[simp] theorem Vec3.sub_mk (a b c d e f : ℝ) :
    Vec3.mk a b c - Vec3.mk d e f = Vec3.mk (a - d) (b - e) (c - f) := rfl

@[simp] theorem Vec3.smul_mk (t a b c : ℝ) :
    t • Vec3.mk a b c = Vec3.mk (t * a) (t * b) (t * c) := rfl

@[simp] theorem Vec3.neg_mk (a b c : ℝ) :
    -Vec3.mk a b c = Vec3.mk (-a) (-b) (-c) := rfl

@[simp] theorem Vec3.add_x (a b : Vec3) : (a + b).x = a.x + b.x := rfl

@[simp] theorem Vec3.add_y (a b : Vec3) : (a + b).y = a.y + b.y := rfl

@[simp] theorem Vec3.add_z (a b : Vec3) : (a + b).z = a.z + b.z := rfl

@[simp] theorem Vec3.sub_x (a b : Vec3) : (a - b).x = a.x - b.x := rfl

@[simp] theorem Vec3.sub_y (a b : Vec3) : (a - b).y = a.y - b.y := rfl

@[simp] theorem Vec3.sub_z (a b : Vec3) : (a - b).z = a.z - b.z := rfl

@[simp] theorem Vec3.smul_x (t : ℝ) (a : Vec3) : (t • a).x = t * a.x := rfl

@[simp] theorem Vec3.smul_y (t : ℝ) (a : Vec3) : (t • a).y = t * a.y := rfl

@[simp] theorem Vec3.smul_z (t : ℝ) (a : Vec3) : (t • a).z = t * a.z := rfl

@[simp] theorem Vec3.neg_x (a : Vec3) : (-a).x = -a.x := rfl

@[simp] theorem Vec3.neg_y (a : Vec3) : (-a).y = -a.y := rfl

@[simp] theorem Vec3.neg_z (a : Vec3) : (-a).z = -a.z := rfl

@[simp] theorem Vec3.zero_x : Vec3.zero.x = 0 := rfl

@[simp] theorem Vec3.zero_y : Vec3.zero.y = 0 := rfl

@[simp] theorem Vec3.zero_z : Vec3.zero.z = 0 := rfl

theorem Vec3.dot_self_nonneg (a : Vec3) : 0 ≤ Vec3.dot a a := by
  obtain ⟨ax, ay, az⟩ := a
  simp only [Vec3.dot]
  nlinarith [sq_nonneg ax, sq_nonneg ay, sq_nonneg az]

theorem Vec3.norm_nonneg (a : Vec3) : 0 ≤ Vec3.norm a := Real.sqrt_nonneg _

theorem Vec3.norm_mul_self (a : Vec3) :
    Vec3.norm a * Vec3.norm a = Vec3.dot a a :=
  Real.mul_self_sqrt a.dot_self_nonneg

theorem Vec3.dot_self_pos (a : Vec3) (h : a ≠ Vec3.zero) : 0 < Vec3.dot a a := by
  obtain ⟨ax, ay, az⟩ := a
  rcases lt_or_eq_of_le (Vec3.dot_self_nonneg ⟨ax, ay, az⟩) with hlt | heq
  · exact hlt
  · exfalso
    apply h
    simp only [Vec3.dot] at heq
    have hx : ax = 0 := by nlinarith [sq_nonneg ax, sq_nonneg ay, sq_nonneg az]
    have hy : ay = 0 := by nlinarith [sq_nonneg ax, sq_nonneg ay, sq_nonneg az]
    have hz : az = 0 := by nlinarith [sq_nonneg ax, sq_nonneg ay, sq_nonneg az]
    simp [Vec3.zero, hx, hy, hz]

theorem Vec3.norm_pos (a : Vec3) (h : a ≠ Vec3.zero) : 0 < Vec3.norm a :=
  Real.sqrt_pos.mpr (a.dot_self_pos h)

theorem Vec3.dot_sq_le (a b : Vec3) :
    Vec3.dot a b ^ 2 ≤ Vec3.dot a a * Vec3.dot b b := by
  obtain ⟨ax, ay, az⟩ := a
  obtain ⟨bx, by', bz⟩ := b
  simp only [Vec3.dot]
  nlinarith [sq_nonneg (ax * by' - ay * bx), sq_nonneg (ax * bz - az * bx),
    sq_nonneg (ay * bz - az * by')]

theorem Vec3.abs_dot_le (a b : Vec3) :
    |Vec3.dot a b| ≤ Vec3.norm a * Vec3.norm b := by
  have h := Vec3.dot_sq_le a b
  have hnn : 0 ≤ Vec3.norm a * Vec3.norm b :=
    mul_nonneg a.norm_nonneg b.norm_nonneg
  rw [← Real.sqrt_sq_eq_abs]
  calc Real.sqrt (Vec3.dot a b ^ 2)
      ≤ Real.sqrt (Vec3.dot a a * Vec3.dot b b) := Real.sqrt_le_sqrt h
    _ = Vec3.norm a * Vec3.norm b := by
        rw [Real.sqrt_mul (Vec3.dot_self_nonneg a)]
        rfl

theorem Vec3.dot_smul_left (t : ℝ) (a b : Vec3) :
    Vec3.dot (t • a) b = t * Vec3.dot a b := by
  obtain ⟨ax, ay, az⟩ := a
  obtain ⟨bx, by', bz⟩ := b
  simp only [Vec3.smul_mk, Vec3.dot]
  ring

/-- Claim C9: for every pitch and yaw (in degrees), the rotation matrix
derived in `Screen.__init__` satisfies `rotationᵀ · rotation = I`, so its
columns form an orthonormal basis. -/
theorem rotation_orthonormal (pitch yaw : ℝ) :
    (mkRotation pitch yaw).transpose.mul (mkRotation pitch yaw) = Mat3.one := by
  have hp := Real.sin_sq_add_cos_sq (deg2rad pitch)
  have hy := Real.sin_sq_add_cos_sq (deg2rad yaw)
  simp only [mkRotation, yaw_matrix, pitch_matrix, Mat3.mul, Mat3.mulVec,
    Mat3.transpose, Mat3.one, Vec3.smul_mk, Vec3.add_mk, Mat3.mk.injEq,
    Vec3.mk.injEq]
  refine ⟨⟨?_, ?_, ?_⟩, ⟨?_, ?_, ?_⟩, ⟨?_, ?_, ?_⟩⟩
  · nlinarith [hp, hy]
  · nlinarith [hp, hy]
  · nlinarith [hp, hy]
  · nlinarith [hp, hy]
  · nlinarith [hp, hy]
  · linear_combination
      (Real.sin (deg2rad pitch) * Real.cos (deg2rad pitch)) * hy
  · nlinarith [hp, hy]
  · linear_combination
      (Real.sin (deg2rad pitch) * Real.cos (deg2rad pitch)) * hy
  · nlinarith [hp, hy]

/-- The rotation matrix preserves dot products: this is the working form of
orthonormality used by the other proofs. -/
theorem mkRotation_dot_mulVec (pitch yaw : ℝ) (u v : Vec3) :
    Vec3.dot ((mkRotation pitch yaw).mulVec u) ((mkRotation pitch yaw).mulVec v)
      = Vec3.dot u v := by
  have hp := Real.sin_sq_add_cos_sq (deg2rad pitch)
  have hy := Real.sin_sq_add_cos_sq (deg2rad yaw)
  obtain ⟨ux, uy, uz⟩ := u
  obtain ⟨vx, vy, vz⟩ := v
  simp only [mkRotation, yaw_matrix, pitch_matrix, Mat3.mul, Mat3.mulVec,
    Vec3.smul_mk, Vec3.add_mk, Vec3.dot]
  linear_combination (uy * vy + uz * vz) * hp +
    (ux * vx + uy * vy * Real.sin (deg2rad pitch) ^ 2 +
      uz * vz * Real.cos (deg2rad pitch) ^ 2 +
      (uy * vz + uz * vy) * Real.sin (deg2rad pitch) *
        Real.cos (deg2rad pitch)) * hy

theorem mkRotation_norm_mulVec (pitch yaw : ℝ) (v : Vec3) :
    Vec3.norm ((mkRotation pitch yaw).mulVec v) = Vec3.norm v := by
  unfold Vec3.norm
  rw [mkRotation_dot_mulVec]

end

noncomputable section

open Real

@[simp] theorem Mat3.mulVec_zero_vec (M : Mat3) :
    M.mulVec ⟨0, 0, 0⟩ = ⟨0, 0, 0⟩ := by
  obtain ⟨⟨a, b, c⟩, ⟨d, e, f⟩, ⟨g, h, i⟩⟩ := M
  simp [Mat3.mulVec]

@[simp] theorem Vec3.zero_add_left (a : Vec3) : Vec3.mk 0 0 0 + a = a := by
  obtain ⟨ax, ay, az⟩ := a
  simp

@[simp] theorem Mat3.one_mulVec (v : Vec3) : Mat3.one.mulVec v = v := by
  obtain ⟨ax, ay, az⟩ := v
  simp [Mat3.one, Mat3.mulVec]

/-- The rotation matrix at zero pitch and zero yaw is the identity. -/
theorem mkRotation_zero : mkRotation 0 0 = Mat3.one := by
  norm_num [mkRotation, deg2rad, yaw_matrix, pitch_matrix, Mat3.mul,
    Mat3.mulVec, Mat3.one]

/-- The center pixel maps to the shift vector, for every constructed Screen.
This is the shared workhorse behind the claims about the center round-trip. -/
theorem to_global_center_aux (w h pitch yaw : ℝ) (sh : Vec3) (r : Option ℝ) :
    (mkScreen w h pitch yaw sh r).to_global (w / 2, h / 2) = sh := by
  cases r with
  | none =>
      show toGlobalAux w h sh none (mkRotation pitch yaw) (w / 2, h / 2) = sh
      simp [toGlobalAux]
  | some r =>
      show toGlobalAux w h sh (some r) (mkRotation pitch yaw) (w / 2, h / 2)
        = sh
      simp [toGlobalAux]

/-- Claim C8: for every Screen, flat or curved, and for every width, height,
pitch, yaw, shift and radius, `to_global((width/2, height/2))` equals `shift`:
the screen center maps back to the position vector of the screen. -/
theorem to_global_center_eq_shift (w h pitch yaw : ℝ) (sh : Vec3)
    (r : Option ℝ) :
    (mkScreen w h pitch yaw sh r).to_global (w / 2, h / 2) = sh :=
  to_global_center_aux w h pitch yaw sh r

/-- Claim C4, amended: `Screen.__init__` performs no validation at all.  For
every width, height, pitch, yaw, shift and (optional) radius — including
`radius ≤ 0` and non-positive extents — construction succeeds, the parameters
are stored unchanged, and the resulting Screen is fully usable (its
`to_global` maps the center pixel to `shift`). -/
theorem mkScreen_no_validation (w h pitch yaw : ℝ) (sh : Vec3)
    (r : Option ℝ) :
    (mkScreen w h pitch yaw sh r).width = w ∧
    (mkScreen w h pitch yaw sh r).height = h ∧
    (mkScreen w h pitch yaw sh r).shift = sh ∧
    (mkScreen w h pitch yaw sh r).radius = r ∧
    (mkScreen w h pitch yaw sh r).to_global (w / 2, h / 2) = sh := by
  refine ⟨?_, ?_, ?_, ?_, to_global_center_aux w h pitch yaw sh r⟩ <;>
    cases r <;> rfl

/-- Counterexample to claim C4 as stated: constructing a Screen with
`radius = -1` (and with positive width and height, so only the radius is
invalid) does not fail; it produces a Screen that stores `radius = -1` and
whose `to_global` works as usual.  No configuration error exists in the
source. -/
theorem mkScreen_negative_radius_usable :
    (mkScreen 2 1 0 0 ⟨0, 0, -2⟩ (some (-1))).radius = some (-1) ∧
    (mkScreen 2 1 0 0 ⟨0, 0, -2⟩ (some (-1))).to_global (1, 1 / 2)
      = ⟨0, 0, -2⟩ := by
  constructor
  · rfl
  · have h := to_global_center_aux 2 1 0 0 ⟨0, 0, -2⟩ (some (-1))
    norm_num at h
    exact h

noncomputable section

open Real

/-- A Screen built with zero pitch and yaw and no radius, written out. -/
theorem mkScreen_flat_zero (w h : ℝ) (sh : Vec3) :
    mkScreen w h 0 0 sh none
      = ⟨w, h, sh, none, Mat3.one, ⟨0, 0, 1⟩, Vec3.zero, Vec3.zero, 0⟩ := by
  simp only [mkScreen]
  rw [mkRotation_zero]
  rfl

/-- Claim C5: for a flat screen, `find_intersect` reports a Miss — it raises
NoIntersection and nothing else — whenever the ray is parallel to the screen
plane (`ray · normal = 0`, where the source would produce an infinity or NaN
that fails the bounds check), and whenever the line-plane coefficient
`t = (shift · normal)/(ray · normal)` is negative (screen behind the eye). -/
theorem flat_miss_parallel_or_behind (s : Screen) (ray : Vec3)
    (hflat : s.radius = none)
    (h : Vec3.dot ray s.normal = 0 ∨
      Vec3.dot s.shift s.normal / Vec3.dot ray s.normal < 0) :
    s.find_intersect ray = .error NoIntersection.mk := by
  unfold Screen.find_intersect
  rw [hflat]
  rcases h with h | h
  · simp only [if_pos h]
  · rcases eq_or_ne (Vec3.dot ray s.normal) 0 with h0 | h0
    · simp only [if_pos h0]
    · simp only [if_neg h0, if_pos h]

/-- Witness for claim C5: the flat screen of the spec's concrete intersection
case, with the ray pointing straight away from it, so that `t = -3 < 0`. -/
theorem flat_miss_parallel_or_behind_witness :
    (mkScreen 5 1 0 0 ⟨0, 0, -3⟩ none).radius = none ∧
    (Vec3.dot ⟨0, 0, 1⟩ (mkScreen 5 1 0 0 ⟨0, 0, -3⟩ none).normal = 0 ∨
      Vec3.dot (mkScreen 5 1 0 0 ⟨0, 0, -3⟩ none).shift
          (mkScreen 5 1 0 0 ⟨0, 0, -3⟩ none).normal /
        Vec3.dot ⟨0, 0, 1⟩ (mkScreen 5 1 0 0 ⟨0, 0, -3⟩ none).normal < 0) ∧
    Screen.find_intersect (mkScreen 5 1 0 0 ⟨0, 0, -3⟩ none) ⟨0, 0, 1⟩
      = .error NoIntersection.mk := by
  have hflat : (mkScreen 5 1 0 0 ⟨0, 0, -3⟩ none).radius = none := by
    rw [mkScreen_flat_zero]
  have h : Vec3.dot ⟨0, 0, 1⟩ (mkScreen 5 1 0 0 ⟨0, 0, -3⟩ none).normal = 0 ∨
      Vec3.dot (mkScreen 5 1 0 0 ⟨0, 0, -3⟩ none).shift
          (mkScreen 5 1 0 0 ⟨0, 0, -3⟩ none).normal /
        Vec3.dot ⟨0, 0, 1⟩ (mkScreen 5 1 0 0 ⟨0, 0, -3⟩ none).normal < 0 := by
    right
    rw [mkScreen_flat_zero]
    norm_num [Vec3.dot]
  exact ⟨hflat, h,
    flat_miss_parallel_or_behind (mkScreen 5 1 0 0 ⟨0, 0, -3⟩ none)
      ⟨0, 0, 1⟩ hflat h⟩

/-- Claim C6: for a curved screen and a ray not parallel to the cylinder
axis, a negative discriminant (the line misses the infinite cylinder) makes
`find_intersect` report a Miss — the NaN that `np.sqrt` would produce fails
the height bounds check in the source and raises NoIntersection, and nothing
else escapes. -/
theorem curved_miss_negative_discriminant (s : Screen) (ray : Vec3) (r : ℝ)
    (hr : s.radius = some r)
    (hax : Vec3.dot (Vec3.cross ray s.axis) (Vec3.cross ray s.axis) ≠ 0)
    (hdisc : r ^ 2 * Vec3.dot (Vec3.cross ray s.axis) (Vec3.cross ray s.axis)
      - Vec3.dot s.base (Vec3.cross ray s.axis) ^ 2 < 0) :
    s.find_intersect ray = .error NoIntersection.mk := by
  unfold Screen.find_intersect
  rw [hr]
  simp only [if_neg hax, if_pos hdisc]

/-- Witness for claim C6: a curved screen of radius 1 whose cylinder axis is
the vertical line through `(0, *, -2)`, and the ray along the positive x
axis, which stays at distance 2 from that axis; the discriminant is `-3`. -/
theorem curved_miss_negative_discriminant_witness :
    (mkScreen 2 1 0 0 ⟨0, 0, -3⟩ (some 1)).radius = some 1 ∧
    Vec3.dot (Vec3.cross ⟨1, 0, 0⟩ (mkScreen 2 1 0 0 ⟨0, 0, -3⟩ (some 1)).axis)
      (Vec3.cross ⟨1, 0, 0⟩ (mkScreen 2 1 0 0 ⟨0, 0, -3⟩ (some 1)).axis) ≠ 0 ∧
    (1 : ℝ) ^ 2 *
      Vec3.dot (Vec3.cross ⟨1, 0, 0⟩ (mkScreen 2 1 0 0 ⟨0, 0, -3⟩ (some 1)).axis)
        (Vec3.cross ⟨1, 0, 0⟩ (mkScreen 2 1 0 0 ⟨0, 0, -3⟩ (some 1)).axis) -
      Vec3.dot (mkScreen 2 1 0 0 ⟨0, 0, -3⟩ (some 1)).base
        (Vec3.cross ⟨1, 0, 0⟩ (mkScreen 2 1 0 0 ⟨0, 0, -3⟩ (some 1)).axis) ^ 2
      < 0 ∧
    Screen.find_intersect (mkScreen 2 1 0 0 ⟨0, 0, -3⟩ (some 1)) ⟨1, 0, 0⟩
      = .error NoIntersection.mk := by
  have haxis : (mkScreen 2 1 0 0 ⟨0, 0, -3⟩ (some 1)).axis = ⟨0, 1, 0⟩ := by
    simp only [mkScreen]
    rw [mkRotation_zero]
    rfl
  have hbase : (mkScreen 2 1 0 0 ⟨0, 0, -3⟩ (some 1)).base
      = ⟨0, -(1 / 2), -2⟩ := by
    simp only [mkScreen]
    rw [mkRotation_zero]
    norm_num [toGlobalAux, Mat3.mulVec, Mat3.one, Vec3.mk.injEq]
  have hr : (mkScreen 2 1 0 0 ⟨0, 0, -3⟩ (some 1)).radius = some 1 := by
    simp only [mkScreen]
  have hax : Vec3.dot
      (Vec3.cross ⟨1, 0, 0⟩ (mkScreen 2 1 0 0 ⟨0, 0, -3⟩ (some 1)).axis)
      (Vec3.cross ⟨1, 0, 0⟩ (mkScreen 2 1 0 0 ⟨0, 0, -3⟩ (some 1)).axis)
      ≠ 0 := by
    rw [haxis]
    norm_num [Vec3.cross, Vec3.dot]
  have hdisc : (1 : ℝ) ^ 2 *
      Vec3.dot (Vec3.cross ⟨1, 0, 0⟩ (mkScreen 2 1 0 0 ⟨0, 0, -3⟩ (some 1)).axis)
        (Vec3.cross ⟨1, 0, 0⟩ (mkScreen 2 1 0 0 ⟨0, 0, -3⟩ (some 1)).axis) -
      Vec3.dot (mkScreen 2 1 0 0 ⟨0, 0, -3⟩ (some 1)).base
        (Vec3.cross ⟨1, 0, 0⟩ (mkScreen 2 1 0 0 ⟨0, 0, -3⟩ (some 1)).axis) ^ 2
      < 0 := by
    rw [haxis, hbase]
    norm_num [Vec3.cross, Vec3.dot]
  exact ⟨hr, hax, hdisc,
    curved_miss_negative_discriminant (mkScreen 2 1 0 0 ⟨0, 0, -3⟩ (some 1))
      ⟨1, 0, 0⟩ 1 hr hax hdisc⟩

/-- Claim C3, evaluated at the failing input in exact real arithmetic: for
the vector `(1,1,1)` — precisely the input whose IEEE-double cosine rounds to
`1.0000000000000002` and makes the unclamped `np.arccos` of the source return
NaN — the exact-arithmetic cosine is 1 and `get_angle` returns 0, and for the
antipodal pair it returns pi.  The source computes this expression with no
clamp, so only floating-point rounding separates it from this result. -/
theorem get_angle_exact_at_failing_input :
    get_angle ⟨1, 1, 1⟩ ⟨1, 1, 1⟩ = 0 ∧
    get_angle ⟨1, 1, 1⟩ (-⟨1, 1, 1⟩) = π := by
  constructor
  · unfold get_angle Vec3.norm Vec3.dot
    norm_num
  · unfold get_angle Vec3.norm Vec3.dot
    norm_num
    rw [div_div, Real.mul_self_sqrt (by norm_num : (0 : ℝ) ≤ 3)]
    norm_num

noncomputable section

open Real

theorem Vec3.dot_add_left (a b c : Vec3) :
    Vec3.dot (a + b) c = Vec3.dot a c + Vec3.dot b c := by
  obtain ⟨ax, ay, az⟩ := a
  obtain ⟨bx, by', bz⟩ := b
  obtain ⟨cx, cy, cz⟩ := c
  simp only [Vec3.add_mk, Vec3.dot]
  ring

theorem Vec3.add_sub_cancel_right (a b : Vec3) : a + b - b = a := by
  obtain ⟨ax, ay, az⟩ := a
  obtain ⟨bx, by', bz⟩ := b
  simp only [Vec3.add_mk, Vec3.sub_mk, Vec3.mk.injEq]
  refine ⟨by ring, by ring, by ring⟩

theorem Vec3.sub_add_cancel_right (a b : Vec3) : a - b + b = a := by
  obtain ⟨ax, ay, az⟩ := a
  obtain ⟨bx, by', bz⟩ := b
  simp only [Vec3.add_mk, Vec3.sub_mk, Vec3.mk.injEq]
  refine ⟨by ring, by ring, by ring⟩

theorem Vec3.smul_smul_assoc (a b : ℝ) (v : Vec3) :
    a • (b • v) = (a * b) • v := by
  obtain ⟨vx, vy, vz⟩ := v
  simp only [Vec3.smul_mk, Vec3.mk.injEq]
  refine ⟨by ring, by ring, by ring⟩

theorem Vec3.one_smul_vec (v : Vec3) : (1 : ℝ) • v = v := by
  obtain ⟨vx, vy, vz⟩ := v
  simp [Vec3.smul_mk]

theorem Mat3.mulVec_unit_x (M : Mat3) : M.mulVec ⟨1, 0, 0⟩ = M.c0 := by
  obtain ⟨⟨a, b, c⟩, ⟨d, e, f⟩, ⟨g, h, i⟩⟩ := M
  simp [Mat3.mulVec]

theorem Mat3.mulVec_unit_y (M : Mat3) : M.mulVec ⟨0, 1, 0⟩ = M.c1 := by
  obtain ⟨⟨a, b, c⟩, ⟨d, e, f⟩, ⟨g, h, i⟩⟩ := M
  simp [Mat3.mulVec]

theorem Mat3.mulVec_unit_z (M : Mat3) : M.mulVec ⟨0, 0, 1⟩ = M.c2 := by
  obtain ⟨⟨a, b, c⟩, ⟨d, e, f⟩, ⟨g, h, i⟩⟩ := M
  simp [Mat3.mulVec]

/-- The displacement of any point of a flat screen from `shift` is orthogonal
to the stored normal (third rotation column). -/
theorem flat_point_perp_normal (pitch yaw dx dy : ℝ) :
    Vec3.dot ((mkRotation pitch yaw).mulVec ⟨dx, dy, 0⟩)
      (mkRotation pitch yaw).c2 = 0 := by
  rw [← Mat3.mulVec_unit_z (mkRotation pitch yaw), mkRotation_dot_mulVec]
  simp [Vec3.dot]

/-- Claim C2, amended: for a flat screen and a pixel strictly inside the
screen, whose global image is a nonzero vector (positive distance along the
ray) and is not orthogonal to the screen normal (the ray is not parallel to
the screen plane — the amendment), `find_intersect` applied to the
normalised ray through that global point returns a Hit whose pixel
coordinates are exactly the original pixel, and whose global point is the
original global point. -/
theorem flat_roundtrip_pixel (w h pitch yaw : ℝ) (sh : Vec3) (px py : ℝ)
    (hx0 : 0 < px) (hxw : px < w) (hy0 : 0 < py) (hyh : py < h)
    (hg : (mkScreen w h pitch yaw sh none).to_global (px, py) ≠ Vec3.zero)
    (hperp : Vec3.dot ((mkScreen w h pitch yaw sh none).to_global (px, py))
      (mkScreen w h pitch yaw sh none).normal ≠ 0) :
    (mkScreen w h pitch yaw sh none).find_intersect
        (Vec3.normalize ((mkScreen w h pitch yaw sh none).to_global (px, py)))
      = .ok ((mkScreen w h pitch yaw sh none).to_global (px, py), (px, py)) := by
  have hradius : (mkScreen w h pitch yaw sh none).radius = none := rfl
  have hshift : (mkScreen w h pitch yaw sh none).shift = sh := rfl
  have hnormal : (mkScreen w h pitch yaw sh none).normal
      = (mkRotation pitch yaw).c2 := rfl
  have hrot : (mkScreen w h pitch yaw sh none).rotation
      = mkRotation pitch yaw := rfl
  have hwidth : (mkScreen w h pitch yaw sh none).width = w := rfl
  have hheight : (mkScreen w h pitch yaw sh none).height = h := rfl
  have hgdef : (mkScreen w h pitch yaw sh none).to_global (px, py)
      = (mkRotation pitch yaw).mulVec ⟨px - w / 2, py - h / 2, 0⟩ + sh := rfl
  set g := (mkScreen w h pitch yaw sh none).to_global (px, py) with hgset
  have hgn : Vec3.dot g (mkRotation pitch yaw).c2
      = Vec3.dot sh (mkRotation pitch yaw).c2 := by
    rw [hgdef, Vec3.dot_add_left, flat_point_perp_normal]
    ring
  have hgn_ne : Vec3.dot g (mkRotation pitch yaw).c2 ≠ 0 := hperp
  have hN : 0 < Vec3.norm g := Vec3.norm_pos g hg
  have hray : Vec3.normalize g = (1 / Vec3.norm g) • g := rfl
  have hrayn : Vec3.dot (Vec3.normalize g) (mkRotation pitch yaw).c2
      = (1 / Vec3.norm g) * Vec3.dot g (mkRotation pitch yaw).c2 := by
    rw [hray, Vec3.dot_smul_left]
  have hrayn_ne : Vec3.dot (Vec3.normalize g) (mkRotation pitch yaw).c2
      ≠ 0 := by
    rw [hrayn]
    exact mul_ne_zero (by positivity) hgn_ne
  have ht : Vec3.dot sh (mkRotation pitch yaw).c2 /
      Vec3.dot (Vec3.normalize g) (mkRotation pitch yaw).c2
      = Vec3.norm g := by
    rw [hrayn, ← hgn]
    field_simp
  have hpoint : (Vec3.dot sh (mkRotation pitch yaw).c2 /
      Vec3.dot (Vec3.normalize g) (mkRotation pitch yaw).c2) •
      Vec3.normalize g - sh = g - sh := by
    rw [ht, hray, Vec3.smul_smul_assoc, mul_one_div, div_self (ne_of_gt hN),
      Vec3.one_smul_vec]
  have hgsub : g - sh
      = (mkRotation pitch yaw).mulVec ⟨px - w / 2, py - h / 2, 0⟩ := by
    rw [hgdef]
    exact Vec3.add_sub_cancel_right _ _
  have hxval : Vec3.dot (mkRotation pitch yaw).c0 (g - sh) + w / 2 = px := by
    rw [hgsub, ← Mat3.mulVec_unit_x (mkRotation pitch yaw),
      mkRotation_dot_mulVec]
    simp [Vec3.dot]
  have hyval : Vec3.dot (mkRotation pitch yaw).c1 (g - sh) + h / 2 = py := by
    rw [hgsub, ← Mat3.mulVec_unit_y (mkRotation pitch yaw),
      mkRotation_dot_mulVec]
    simp [Vec3.dot]
  have htpos : ¬ (Vec3.dot sh (mkRotation pitch yaw).c2 /
      Vec3.dot (Vec3.normalize g) (mkRotation pitch yaw).c2 < 0) := by
    rw [ht]
    exact not_lt.mpr (le_of_lt hN)
  unfold Screen.find_intersect
  rw [hradius, hshift, hnormal, hrot, hwidth, hheight]
  simp only [if_neg hrayn_ne, if_neg htpos]
  rw [hpoint, hxval, hyval, Vec3.sub_add_cancel_right]
  rw [if_pos ⟨le_of_lt hx0, le_of_lt hxw, le_of_lt hy0, le_of_lt hyh⟩]

/-- Witness for claim C2 (amended): the spec's flat screen straight ahead,
with an off-center interior pixel; the round trip reproduces the pixel. -/
theorem flat_roundtrip_pixel_witness :
    (0 : ℝ) < 3 / 2 ∧ (3 / 2 : ℝ) < 2 ∧ (0 : ℝ) < 3 / 4 ∧ (3 / 4 : ℝ) < 1 ∧
    (mkScreen 2 1 0 0 ⟨0, 0, -1⟩ none).to_global (3 / 2, 3 / 4)
      ≠ Vec3.zero ∧
    Vec3.dot ((mkScreen 2 1 0 0 ⟨0, 0, -1⟩ none).to_global (3 / 2, 3 / 4))
      (mkScreen 2 1 0 0 ⟨0, 0, -1⟩ none).normal ≠ 0 ∧
    (mkScreen 2 1 0 0 ⟨0, 0, -1⟩ none).find_intersect
        (Vec3.normalize
          ((mkScreen 2 1 0 0 ⟨0, 0, -1⟩ none).to_global (3 / 2, 3 / 4)))
      = .ok ((mkScreen 2 1 0 0 ⟨0, 0, -1⟩ none).to_global (3 / 2, 3 / 4),
          (3 / 2, 3 / 4)) := by
  have hgval : (mkScreen 2 1 0 0 ⟨0, 0, -1⟩ none).to_global (3 / 2, 3 / 4)
      = ⟨1 / 2, 1 / 4, -1⟩ := by
    show toGlobalAux 2 1 ⟨0, 0, -1⟩ none (mkRotation 0 0) (3 / 2, 3 / 4) = _
    rw [mkRotation_zero]
    norm_num [toGlobalAux, Mat3.one, Mat3.mulVec, Vec3.mk.injEq]
  have hnormalval : (mkScreen 2 1 0 0 ⟨0, 0, -1⟩ none).normal
      = ⟨0, 0, 1⟩ := by
    rw [mkScreen_flat_zero]
  have hg : (mkScreen 2 1 0 0 ⟨0, 0, -1⟩ none).to_global (3 / 2, 3 / 4)
      ≠ Vec3.zero := by
    rw [hgval]
    norm_num [Vec3.zero, Vec3.mk.injEq]
  have hperp :
      Vec3.dot ((mkScreen 2 1 0 0 ⟨0, 0, -1⟩ none).to_global (3 / 2, 3 / 4))
        (mkScreen 2 1 0 0 ⟨0, 0, -1⟩ none).normal ≠ 0 := by
    rw [hgval, hnormalval]
    norm_num [Vec3.dot]
  exact ⟨by norm_num, by norm_num, by norm_num, by norm_num, hg, hperp,
    flat_roundtrip_pixel 2 1 0 0 ⟨0, 0, -1⟩ (3 / 2) (3 / 4) (by norm_num)
      (by norm_num) (by norm_num) (by norm_num) hg hperp⟩

/-- Counterexample to claim C2 as stated: a flat screen with zero pitch and
yaw shifted to `(5,0,0)` lies in the plane `z = 0`, which contains the eye.
The pixel `(3/2, 1)` is strictly inside the 2 by 2 screen, its global image
is `(11/2, 0, 0)`, which lies at the positive distance `11/2` along the
normalised ray through it — yet `find_intersect` on that ray reports a Miss,
so no Hit with pixel `(3/2, 1)` is returned.  With zero angles every rotation
entry is an exact double (`cos 0 = 1`, `sin 0 = 0`) and every coordinate here
is exactly representable, so the floating-point source traces identically:
`ray @ normal` is exactly `0.0`, `t = 0.0/0.0` is NaN, and the NaN pixel
coordinates fail the bounds comparison, raising NoIntersection.  The claim
needs the extra hypothesis that the ray is not parallel to the plane. -/
theorem flat_roundtrip_fails_when_parallel :
    (0 : ℝ) < 3 / 2 ∧ (3 / 2 : ℝ) < 2 ∧ (0 : ℝ) < 1 ∧ (1 : ℝ) < 2 ∧
    (mkScreen 2 2 0 0 ⟨5, 0, 0⟩ none).to_global (3 / 2, 1)
      = ⟨11 / 2, 0, 0⟩ ∧
    Vec3.norm ((mkScreen 2 2 0 0 ⟨5, 0, 0⟩ none).to_global (3 / 2, 1))
      = 11 / 2 ∧
    (mkScreen 2 2 0 0 ⟨5, 0, 0⟩ none).find_intersect
        (Vec3.normalize
          ((mkScreen 2 2 0 0 ⟨5, 0, 0⟩ none).to_global (3 / 2, 1)))
      = .error NoIntersection.mk := by
  have hgval : (mkScreen 2 2 0 0 ⟨5, 0, 0⟩ none).to_global (3 / 2, 1)
      = ⟨11 / 2, 0, 0⟩ := by
    show toGlobalAux 2 2 ⟨5, 0, 0⟩ none (mkRotation 0 0) (3 / 2, 1) = _
    rw [mkRotation_zero]
    norm_num [toGlobalAux, Mat3.one, Mat3.mulVec, Vec3.mk.injEq]
  have hnorm : Vec3.norm (Vec3.mk (11 / 2) 0 0) = 11 / 2 := by
    have hd : Vec3.dot ⟨11 / 2, 0, 0⟩ ⟨11 / 2, 0, 0⟩ = (11 / 2) ^ 2 := by
      norm_num [Vec3.dot]
    unfold Vec3.norm
    rw [hd, Real.sqrt_sq (by norm_num : (0 : ℝ) ≤ 11 / 2)]
  have hrayval : Vec3.normalize ⟨11 / 2, 0, 0⟩ = ⟨1, 0, 0⟩ := by
    unfold Vec3.normalize
    rw [hnorm]
    norm_num [Vec3.smul_mk, Vec3.mk.injEq]
  have hnormalval : (mkScreen 2 2 0 0 ⟨5, 0, 0⟩ none).normal
      = ⟨0, 0, 1⟩ := by
    rw [mkScreen_flat_zero]
  have hradius : (mkScreen 2 2 0 0 ⟨5, 0, 0⟩ none).radius = none := rfl
  refine ⟨by norm_num, by norm_num, by norm_num, by norm_num, hgval, ?_, ?_⟩
  · rw [hgval, hnorm]
  · rw [hgval, hrayval]
    unfold Screen.find_intersect
    rw [hradius]
    have hpar : Vec3.dot ⟨1, 0, 0⟩
        (mkScreen 2 2 0 0 ⟨5, 0, 0⟩ none).normal = 0 := by
      rw [hnormalval]
      norm_num [Vec3.dot]
    simp only [if_pos hpar]

/-- One selection-loop step preserves the loop invariant. -/
theorem resolveStep_inv (ray : Vec3) (processed : List Screen)
    (st : Option (Screen × (ℝ × ℝ) × ℝ)) (c : Screen)
    (h : ResolveInv ray processed st) :
    ResolveInv ray (processed ++ [c]) (resolveStep ray st c) := by
  unfold resolveStep
  cases hfi : c.find_intersect ray with
  | error e =>
      cases st with
      | none =>
          simp only [ResolveInv] at h ⊢
          intro s hs pt px
          rcases List.mem_append.mp hs with hs | hs
          · exact h s hs pt px
          · rcases List.mem_singleton.mp hs with rfl
            rw [hfi]
            intro hcontra
            cases hcontra
      | some b =>
          obtain ⟨bs, bp, bd⟩ := b
          simp only [ResolveInv] at h ⊢
          obtain ⟨pre, post, pt, hsplit, hhit, hbd, hpre, hpost⟩ := h
          refine ⟨pre, post ++ [c], pt, ?_, hhit, hbd, hpre, ?_⟩
          · rw [hsplit, List.append_assoc]
            rfl
          · intro s hs pt2 px2 hok
            rcases List.mem_append.mp hs with hs | hs
            · exact hpost s hs pt2 px2 hok
            · rcases List.mem_singleton.mp hs with rfl
              rw [hfi] at hok
              cases hok
  | ok res =>
      obtain ⟨pt1, px1⟩ := res
      cases st with
      | none =>
          simp only [ResolveInv] at h ⊢
          refine ⟨processed, [], pt1, by simp, hfi, rfl, ?_, by simp⟩
          intro s hs pt2 px2 hok
          exact absurd hok (h s hs pt2 px2)
      | some b =>
          obtain ⟨bs, bp, bd⟩ := b
          simp only [ResolveInv] at h ⊢
          obtain ⟨pre, post, pt, hsplit, hhit, hbd, hpre, hpost⟩ := h
          by_cases hlt : Vec3.norm pt1 < bd
          · rw [if_pos hlt]
            refine ⟨processed, [], pt1, by simp, hfi, rfl, ?_, by simp⟩
            intro s hs pt2 px2 hok
            rw [hsplit] at hs
            rcases List.mem_append.mp hs with hs | hs
            · exact lt_trans hlt (hpre s hs pt2 px2 hok)
            · rcases List.mem_cons.mp hs with rfl | hs
              · rw [hhit] at hok
                injection hok with hok
                obtain ⟨rfl, rfl⟩ := Prod.mk.injEq .. ▸ hok
                exact hbd ▸ hlt
              · exact lt_of_lt_of_le hlt (hbd ▸ hpost s hs pt2 px2 hok)
          · rw [if_neg hlt]
            refine ⟨pre, post ++ [c], pt, ?_, hhit, hbd, hpre, ?_⟩
            · rw [hsplit, List.append_assoc]
              rfl
            · intro s hs pt2 px2 hok
              rcases List.mem_append.mp hs with hs | hs
              · exact hpost s hs pt2 px2 hok
              · rcases List.mem_singleton.mp hs with rfl
                rw [hfi] at hok
                injection hok with hok
                obtain ⟨rfl, rfl⟩ := Prod.mk.injEq .. ▸ hok
                exact not_lt.mp hlt

/-- Folding the selection step over any suffix extends the invariant. -/
theorem foldl_resolve_inv (ray : Vec3) (l : List Screen) :
    ∀ (processed : List Screen) (st : Option (Screen × (ℝ × ℝ) × ℝ)),
      ResolveInv ray processed st →
      ResolveInv ray (processed ++ l) (l.foldl (resolveStep ray) st) := by
  induction l with
  | nil =>
      intro processed st h
      simpa using h
  | cons c l ih =>
      intro processed st h
      have h2 := resolveStep_inv ray processed st c h
      have h3 := ih (processed ++ [c]) _ h2
      rw [List.append_assoc] at h3
      simpa using h3

/-- If every screen misses, the fold stays in the initial state. -/
theorem foldl_resolve_none (ray : Vec3) (l : List Screen)
    (h : ∀ s ∈ l, s.find_intersect ray = .error NoIntersection.mk) :
    l.foldl (resolveStep ray) none = none := by
  induction l with
  | nil => rfl
  | cons c l ih =>
      have hc : resolveStep ray none c = none := by
        unfold resolveStep
        rw [h c (List.mem_cons_self c l)]
      rw [List.foldl_cons, hc]
      exact ih fun s hs => h s (List.mem_cons_of_mem c hs)

/-- Claim C7: `find_screen_and_point` returns its "no intersection found"
error exactly when every candidate screen misses the reconstructed ray; a
per-screen Miss is absorbed inside the selection loop (the fold) and never
reaches the caller of the resolver, whose only failure value is this one. -/
theorem resolver_error_iff_all_miss (fp : ℝ × ℝ) (fs : Screen)
    (screens : List Screen) (angles : ℝ × ℝ) :
    find_screen_and_point fp fs screens angles
        = .error ResolverError.noIntersectionFound
      ↔ ∀ s ∈ screens,
          s.find_intersect (mkRay fp fs angles)
            = .error NoIntersection.mk := by
  constructor
  · intro h
    unfold find_screen_and_point at h
    cases hfold : List.foldl (resolveStep (mkRay fp fs angles)) none screens
      with
    | some b =>
        rw [hfold] at h
        obtain ⟨bs, bp, bd⟩ := b
        cases h
    | none =>
        have hinv := foldl_resolve_inv (mkRay fp fs angles) screens [] none
          (by simp [ResolveInv])
        rw [hfold] at hinv
        simp only [ResolveInv, List.nil_append] at hinv
        intro s hs
        cases hfi : s.find_intersect (mkRay fp fs angles) with
        | ok res =>
            obtain ⟨pt, px⟩ := res
            exact absurd hfi (hinv s hs pt px)
        | error e =>
            cases e
            rfl
  · intro h
    unfold find_screen_and_point
    rw [foldl_resolve_none _ _ h]

/-- Claim C1: whenever `find_screen_and_point` returns a screen and pixel,
that screen is a candidate whose `find_intersect` produced a Hit for the
reconstructed ray with exactly that pixel, its global intersection point has
minimum Euclidean norm among the Hits of all candidate screens, and every
candidate placed before it in iteration order that produced a Hit did so at a
strictly larger norm — so on an exact tie of minimal distances the first
screen in iteration order is the one returned. -/
theorem resolver_selects_nearest_first (fp : ℝ × ℝ) (fs : Screen)
    (screens : List Screen) (angles : ℝ × ℝ) (s : Screen) (px : ℝ × ℝ)
    (h : find_screen_and_point fp fs screens angles = .ok (s, px)) :
    ∃ pre post pt,
      screens = pre ++ s :: post ∧
      s.find_intersect (mkRay fp fs angles) = .ok (pt, px) ∧
      (∀ s2 ∈ screens, ∀ pt2 px2,
        s2.find_intersect (mkRay fp fs angles) = .ok (pt2, px2) →
        Vec3.norm pt ≤ Vec3.norm pt2) ∧
      (∀ s2 ∈ pre, ∀ pt2 px2,
        s2.find_intersect (mkRay fp fs angles) = .ok (pt2, px2) →
        Vec3.norm pt < Vec3.norm pt2) := by
  unfold find_screen_and_point at h
  cases hfold : List.foldl (resolveStep (mkRay fp fs angles)) none screens
    with
  | none =>
      rw [hfold] at h
      cases h
  | some b =>
      obtain ⟨bs, bp, bd⟩ := b
      rw [hfold] at h
      injection h with h
      obtain ⟨rfl, rfl⟩ := Prod.mk.injEq .. ▸ h
      have hinv := foldl_resolve_inv (mkRay fp fs angles) screens [] none
        (by simp [ResolveInv])
      rw [hfold] at hinv
      simp only [ResolveInv, List.nil_append] at hinv
      obtain ⟨pre, post, pt, hsplit, hhit, hbd, hpre, hpost⟩ := hinv
      refine ⟨pre, post, pt, hsplit, hhit, ?_, ?_⟩
      · intro s2 hs2 pt2 px2 hok
        rw [hsplit] at hs2
        rcases List.mem_append.mp hs2 with hs2 | hs2
        · exact le_of_lt (hbd ▸ hpre s2 hs2 pt2 px2 hok)
        · rcases List.mem_cons.mp hs2 with rfl | hs2
          · rw [hhit] at hok
            injection hok with hok
            obtain ⟨rfl, rfl⟩ := Prod.mk.injEq .. ▸ hok
            exact le_refl _
          · exact hbd ▸ hpost s2 hs2 pt2 px2 hok
      · intro s2 hs2 pt2 px2 hok
        exact hbd ▸ hpre s2 hs2 pt2 px2 hok

/-- The two-argument arctangent of the straight-back direction. -/
theorem arctan2_zero_neg_two : arctan2 (0 : ℝ) (-2) = π := by
  unfold arctan2
  rw [if_neg (by norm_num : ¬ ((0 : ℝ) < -2)),
    if_pos (by norm_num : (-2 : ℝ) < 0), if_pos (le_refl (0 : ℝ))]
  norm_num

/-- The two-argument arctangent of a point on the positive axis. -/
theorem arctan2_zero_two : arctan2 (0 : ℝ) 2 = 0 := by
  unfold arctan2
  rw [if_pos (by norm_num : (0 : ℝ) < 2)]
  norm_num

/-- The ray the resolver reconstructs for a fixation at the center of a flat
screen straight behind the z axis, with zero angular offset: straight at the
screen. -/
theorem mkRay_example :
    mkRay (1, 1 / 2) (mkScreen 2 1 0 0 ⟨0, 0, -2⟩ none) (0, 0)
      = ⟨0, 0, -1⟩ := by
  have hg : (mkScreen 2 1 0 0 ⟨0, 0, -2⟩ none).to_global (1, 1 / 2)
      = ⟨0, 0, -2⟩ := by
    have h := to_global_center_aux 2 1 0 0 ⟨0, 0, -2⟩ none
    norm_num at h
    exact h
  have hsq : Real.sqrt (4 : ℝ) = 2 := by
    rw [show (4 : ℝ) = 2 ^ 2 by norm_num,
      Real.sqrt_sq (by norm_num : (0 : ℝ) ≤ 2)]
  simp only [mkRay, hg, get_spherical]
  norm_num [hsq, arctan2_zero_neg_two, arctan2_zero_two, deg2rad,
    Real.sin_pi, Real.cos_pi, Real.sin_zero, Real.cos_zero, Vec3.mk.injEq]

/-- The flat screen straight behind the z axis is hit at its center by the
straight-back ray. -/
theorem find_intersect_example :
    (mkScreen 2 1 0 0 ⟨0, 0, -2⟩ none).find_intersect ⟨0, 0, -1⟩
      = .ok (⟨0, 0, -2⟩, (1, 1 / 2)) := by
  rw [mkScreen_flat_zero]
  unfold Screen.find_intersect
  norm_num [Vec3.dot, Mat3.one, Vec3.smul_mk, Vec3.sub_mk, Vec3.add_mk,
    Except.ok.injEq, Prod.mk.injEq, Vec3.mk.injEq]

/-- The resolver on the single-screen scene of the example returns that
screen with the fixation pixel unchanged. -/
theorem resolver_eval_example :
    find_screen_and_point (1, 1 / 2) (mkScreen 2 1 0 0 ⟨0, 0, -2⟩ none)
      [mkScreen 2 1 0 0 ⟨0, 0, -2⟩ none] (0, 0)
      = .ok (mkScreen 2 1 0 0 ⟨0, 0, -2⟩ none, (1, 1 / 2)) := by
  have hstep : List.foldl (resolveStep (⟨0, 0, -1⟩ : Vec3)) none
      [mkScreen 2 1 0 0 ⟨0, 0, -2⟩ none]
      = some (mkScreen 2 1 0 0 ⟨0, 0, -2⟩ none, (1, 1 / 2),
          Vec3.norm ⟨0, 0, -2⟩) := by
    rw [List.foldl_cons, List.foldl_nil]
    unfold resolveStep
    rw [find_intersect_example]
  unfold find_screen_and_point
  rw [mkRay_example, hstep]

/-- Witness for claim C1: the single-screen scene of the example; the
resolver returns the screen, and the nearest-first decomposition holds. -/
theorem resolver_selects_nearest_first_witness :
    ∃ pre post pt,
      [mkScreen 2 1 0 0 ⟨0, 0, -2⟩ none]
        = pre ++ mkScreen 2 1 0 0 ⟨0, 0, -2⟩ none :: post ∧
      (mkScreen 2 1 0 0 ⟨0, 0, -2⟩ none).find_intersect
          (mkRay (1, 1 / 2) (mkScreen 2 1 0 0 ⟨0, 0, -2⟩ none) (0, 0))
        = .ok (pt, (1, 1 / 2)) ∧
      (∀ s2 ∈ [mkScreen 2 1 0 0 ⟨0, 0, -2⟩ none], ∀ pt2 px2,
        s2.find_intersect
            (mkRay (1, 1 / 2) (mkScreen 2 1 0 0 ⟨0, 0, -2⟩ none) (0, 0))
          = .ok (pt2, px2) →
        Vec3.norm pt ≤ Vec3.norm pt2) ∧
      (∀ s2 ∈ pre, ∀ pt2 px2,
        s2.find_intersect
            (mkRay (1, 1 / 2) (mkScreen 2 1 0 0 ⟨0, 0, -2⟩ none) (0, 0))
          = .ok (pt2, px2) →
        Vec3.norm pt < Vec3.norm pt2) :=
  resolver_selects_nearest_first (1, 1 / 2)
    (mkScreen 2 1 0 0 ⟨0, 0, -2⟩ none)
    [mkScreen 2 1 0 0 ⟨0, 0, -2⟩ none] (0, 0)
    (mkScreen 2 1 0 0 ⟨0, 0, -2⟩ none) (1, 1 / 2) resolver_eval_example

theorem Vec3.sub_add_self_right (a b : Vec3) : a - (a + b) = (-1 : ℝ) • b := by
  obtain ⟨ax, ay, az⟩ := a
  obtain ⟨bx, by', bz⟩ := b
  simp only [Vec3.add_mk, Vec3.sub_mk, Vec3.smul_mk, Vec3.mk.injEq]
  refine ⟨by ring, by ring, by ring⟩

theorem Vec3.add_sub_add_add (a b s c : Vec3) :
    (a + s) - (b + s + c) = a - b - c := by
  obtain ⟨ax, ay, az⟩ := a
  obtain ⟨bx, by', bz⟩ := b
  obtain ⟨sx, sy, sz⟩ := s
  obtain ⟨cx, cy, cz⟩ := c
  simp only [Vec3.add_mk, Vec3.sub_mk, Vec3.mk.injEq]
  refine ⟨by ring, by ring, by ring⟩

theorem Mat3.mulVec_z_smul (M : Mat3) (t : ℝ) :
    M.mulVec ⟨0, 0, t⟩ = t • M.c2 := by
  obtain ⟨⟨a, b, c⟩, ⟨d, e, f⟩, ⟨g, h, i⟩⟩ := M
  simp only [Mat3.mulVec, Vec3.smul_mk, Vec3.add_mk, Vec3.mk.injEq]
  refine ⟨by ring, by ring, by ring⟩

theorem Mat3.mulVec_sub (M : Mat3) (u v : Vec3) :
    M.mulVec (u - v) = M.mulVec u - M.mulVec v := by
  obtain ⟨⟨a, b, c⟩, ⟨d, e, f⟩, ⟨g, h, i⟩⟩ := M
  obtain ⟨ux, uy, uz⟩ := u
  obtain ⟨vx, vy, vz⟩ := v
  simp only [Mat3.mulVec, Vec3.smul_mk, Vec3.add_mk, Vec3.sub_mk,
    Vec3.mk.injEq]
  refine ⟨by ring, by ring, by ring⟩

theorem Mat3.smul_mulVec (M : Mat3) (t : ℝ) (v : Vec3) :
    t • M.mulVec v = M.mulVec (t • v) := by
  obtain ⟨⟨a, b, c⟩, ⟨d, e, f⟩, ⟨g, h, i⟩⟩ := M
  obtain ⟨vx, vy, vz⟩ := v
  simp only [Mat3.mulVec, Vec3.smul_mk, Vec3.add_mk, Vec3.mk.injEq]
  refine ⟨by ring, by ring, by ring⟩

/-- The rotation matrix preserves the unsigned angle computation. -/
theorem get_angle_mulVec (pitch yaw : ℝ) (u v : Vec3) :
    get_angle ((mkRotation pitch yaw).mulVec u)
      ((mkRotation pitch yaw).mulVec v) = get_angle u v := by
  unfold get_angle
  rw [mkRotation_dot_mulVec, mkRotation_norm_mulVec, mkRotation_norm_mulVec]

/-- The angular half-extent stored at construction of a curved screen equals
`width / (2 * radius)` whenever the radius is positive and the width is
nonnegative and wraps at most once around the cylinder. -/
theorem mkScreen_curved_theta_max (w h pitch yaw : ℝ) (sh : Vec3) (r : ℝ)
    (hr : 0 < r) (hw0 : 0 ≤ w) (hw : w ≤ 2 * π * r) :
    (mkScreen w h pitch yaw sh (some r)).theta_max = w / (2 * r) := by
  have hrne : r ≠ 0 := ne_of_gt hr
  have hdef : (mkScreen w h pitch yaw sh (some r)).theta_max
      = get_angle
          (toGlobalAux w h sh (some r) (mkRotation pitch yaw) (w / 2, 0)
            - (toGlobalAux w h sh (some r) (mkRotation pitch yaw) (w / 2, 0)
                + r • (mkRotation pitch yaw).c2))
          (toGlobalAux w h sh (some r) (mkRotation pitch yaw) (w, 0)
            - (toGlobalAux w h sh (some r) (mkRotation pitch yaw) (w / 2, 0)
                + r • (mkRotation pitch yaw).c2)) := rfl
  have hp : toGlobalAux w h sh (some r) (mkRotation pitch yaw) (w / 2, 0)
      = (mkRotation pitch yaw).mulVec ⟨0, 0 - h / 2, 0⟩ + sh := by
    unfold toGlobalAux
    norm_num
  have hq : toGlobalAux w h sh (some r) (mkRotation pitch yaw) (w, 0)
      = (mkRotation pitch yaw).mulVec
          ⟨r * Real.sin ((w - w / 2) / r), 0 - h / 2,
            r * (1 - Real.cos ((w - w / 2) / r))⟩ + sh := by
    unfold toGlobalAux
    norm_num
  have hpb : toGlobalAux w h sh (some r) (mkRotation pitch yaw) (w / 2, 0)
      - (toGlobalAux w h sh (some r) (mkRotation pitch yaw) (w / 2, 0)
          + r • (mkRotation pitch yaw).c2)
      = (mkRotation pitch yaw).mulVec ⟨0, 0, -r⟩ := by
    rw [Vec3.sub_add_self_right, ← Mat3.mulVec_z_smul, Mat3.smul_mulVec]
    norm_num
  have hqb : toGlobalAux w h sh (some r) (mkRotation pitch yaw) (w, 0)
      - (toGlobalAux w h sh (some r) (mkRotation pitch yaw) (w / 2, 0)
          + r • (mkRotation pitch yaw).c2)
      = (mkRotation pitch yaw).mulVec
          ⟨r * Real.sin ((w - w / 2) / r), 0,
            -(r * Real.cos ((w - w / 2) / r))⟩ := by
    rw [hp, hq, Vec3.add_sub_add_add, ← Mat3.mulVec_z_smul,
      ← Mat3.mulVec_sub, ← Mat3.mulVec_sub]
    congr 1
    simp only [Vec3.sub_mk, Vec3.mk.injEq]
    refine ⟨by ring, by ring, by ring⟩
  rw [hdef, hpb, hqb, get_angle_mulVec]
  have halpha : (w - w / 2) / r = w / (2 * r) := by
    field_simp
    ring
  rw [halpha]
  unfold get_angle Vec3.norm
  rw [show Vec3.dot (⟨0, 0, -r⟩ : Vec3)
      ⟨r * Real.sin (w / (2 * r)), 0, -(r * Real.cos (w / (2 * r)))⟩
      = r ^ 2 * Real.cos (w / (2 * r)) from by
        simp only [Vec3.dot]
        ring]
  rw [show Vec3.dot (⟨0, 0, -r⟩ : Vec3) ⟨0, 0, -r⟩ = r ^ 2 from by
        simp only [Vec3.dot]
        ring]
  rw [show Vec3.dot
      (⟨r * Real.sin (w / (2 * r)), 0, -(r * Real.cos (w / (2 * r)))⟩ : Vec3)
      ⟨r * Real.sin (w / (2 * r)), 0, -(r * Real.cos (w / (2 * r)))⟩
      = r ^ 2 from by
        simp only [Vec3.dot]
        linear_combination r ^ 2 * Real.sin_sq_add_cos_sq (w / (2 * r))]
  rw [Real.sqrt_sq (le_of_lt hr)]
  rw [show r ^ 2 * Real.cos (w / (2 * r)) / r / r = Real.cos (w / (2 * r))
    from by
      field_simp
      ring]
  exact Real.arccos_cos (div_nonneg hw0 (by positivity))
    ((div_le_iff₀ (by positivity)).mpr (by nlinarith))

theorem get_angle_nonneg (a b : Vec3) : 0 ≤ get_angle a b :=
  Real.arccos_nonneg _

/-- Bounding the pixel x coordinate produced by the curved branch: the sign
factor is one of -1, 0, 1, and the arc length is at most half the width. -/
theorem x_range_aux (wv r T S : ℝ) (hr : 0 < r) (hw0 : 0 ≤ wv) (hT0 : 0 ≤ T)
    (hT : T ≤ wv / (2 * r)) :
    0 ≤ wv / 2 + Real.sign S * T * r ∧
    wv / 2 + Real.sign S * T * r ≤ wv := by
  have hTr : T * r ≤ wv / 2 := by
    have h1 := mul_le_mul_of_nonneg_right hT (le_of_lt hr)
    calc T * r ≤ wv / (2 * r) * r := h1
      _ = wv / 2 := by
          field_simp
          ring
  have hTr0 : 0 ≤ T * r := mul_nonneg hT0 (le_of_lt hr)
  rcases lt_trichotomy S 0 with hS | hS | hS
  · rw [Real.sign_of_neg hS]
    constructor <;> nlinarith
  · rw [hS, Real.sign_zero]
    constructor <;> nlinarith
  · rw [Real.sign_of_pos hS]
    constructor <;> nlinarith

/-- Claim C10: on a curved screen with positive radius whose width spans at
most the full circumference (`width ≤ 2·π·radius`), every Hit returned by
`find_intersect` has its pixel x coordinate inside `[0, width]`, although the
code performs no explicit bounds check on x: `theta_max` equals
`width/(2·radius)` at construction, a Hit satisfies `theta ≤ theta_max` with
`theta ≥ 0`, and `x = width/2 + sign·theta·radius` with the sign in
`{-1, 0, 1}`.  The width is taken nonnegative, as the data model requires. -/
theorem curved_hit_x_in_range (w h pitch yaw : ℝ) (sh : Vec3) (r : ℝ)
    (ray pt : Vec3) (x y : ℝ)
    (hr : 0 < r) (hw0 : 0 ≤ w) (hw : w ≤ 2 * π * r)
    (hok : (mkScreen w h pitch yaw sh (some r)).find_intersect ray
      = .ok (pt, (x, y))) :
    0 ≤ x ∧ x ≤ w := by
  have hrad : (mkScreen w h pitch yaw sh (some r)).radius = some r := rfl
  unfold Screen.find_intersect at hok
  rw [hrad] at hok
  simp only [] at hok
  split_ifs at hok with h1 h2 h3 h4
  all_goals first
    | exact Except.noConfusion hok
    | (injection hok with hok
       obtain ⟨hpt, hpx⟩ := Prod.mk.injEq .. ▸ hok
       obtain ⟨hx, hy⟩ := Prod.mk.injEq .. ▸ hpx
       subst hx
       have hT := not_lt.mp h4
       rw [mkScreen_curved_theta_max w h pitch yaw sh r hr hw0 hw] at hT
       exact x_range_aux w r _ _ hr hw0 (get_angle_nonneg _ _) hT)

/-- The curved screen of the spec's concrete case, with its derived fields
written out. -/
theorem mkScreen_curved_example :
    mkScreen 2 1 0 0 ⟨0, 0, -2⟩ (some 1)
      = Screen.mk 2 1 ⟨0, 0, -2⟩ (some 1) Mat3.one ⟨0, 0, 1⟩
          ⟨0, -(1 / 2), -1⟩ ⟨0, 1, 0⟩
          (get_angle ⟨0, 0, -1⟩ ⟨Real.sin 1, 0, -Real.cos 1⟩) := by
  simp only [mkScreen]
  rw [mkRotation_zero]
  norm_num [toGlobalAux, Mat3.mulVec, Mat3.one, Screen.mk.injEq,
    Vec3.mk.injEq, Vec3.smul_mk, Vec3.add_mk, Vec3.sub_mk]
  congr 1
  simp only [Vec3.mk.injEq]
  refine ⟨trivial, trivial, by ring⟩

/-- The straight-back ray hits the curved example screen at its center. -/
theorem find_intersect_curved_example :
    (mkScreen 2 1 0 0 ⟨0, 0, -2⟩ (some 1)).find_intersect ⟨0, 0, -1⟩
      = .ok (⟨0, 0, -2⟩, (1, 1 / 2)) := by
  have hth : get_angle ⟨0, 0, (-1 : ℝ)⟩ ⟨0, 0, -1⟩ = 0 := by
    unfold get_angle Vec3.norm Vec3.dot
    norm_num
  rw [mkScreen_curved_example]
  unfold Screen.find_intersect
  norm_num [Vec3.cross, Vec3.dot, Vec3.smul_mk, Vec3.sub_mk, Vec3.add_mk,
    Real.sqrt_one, Screen.to_global, toGlobalAux, Mat3.one, Mat3.mulVec,
    Real.sin_zero, Real.cos_zero, hth]
  intro hcontra
  exact absurd hcontra (not_lt.mpr (get_angle_nonneg _ _))

/-- Witness for claim C10: the curved example screen (radius 1, width 2,
which is below the circumference bound) is hit by the straight-back ray at
pixel `(1, 1/2)`, and the x coordinate indeed lies inside `[0, 2]`. -/
theorem curved_hit_x_in_range_witness :
    (0 : ℝ) < 1 ∧ (0 : ℝ) ≤ 2 ∧ (2 : ℝ) ≤ 2 * π * 1 ∧
    (mkScreen 2 1 0 0 ⟨0, 0, -2⟩ (some 1)).find_intersect ⟨0, 0, -1⟩
      = .ok (⟨0, 0, -2⟩, (1, 1 / 2)) ∧
    ((0 : ℝ) ≤ 1 ∧ (1 : ℝ) ≤ 2) := by
  have hpi : (2 : ℝ) ≤ 2 * π * 1 := by
    nlinarith [Real.pi_gt_three]
  exact ⟨by norm_num, by norm_num, hpi, find_intersect_curved_example,
    curved_hit_x_in_range 2 1 0 0 ⟨0, 0, -2⟩ 1 ⟨0, 0, -1⟩ ⟨0, 0, -2⟩ 1 (1 / 2)
      (by norm_num) (by norm_num) hpi find_intersect_curved_example⟩
